import Mathlib

/-!
Verification of the Backend of the Smart-system surveillance repository
(`Backend/smart_surveillance.py`), as a shallow embedding in Lean 4.

Modelling conventions:
* wall-clock times (`time.time()`), face-match distances and classifier
  probabilities are modelled as rationals (`ℚ`);
* Python `int(x)` (truncation toward zero) is modelled by `pyInt`;
* Python dicts used as "last emitted" maps are modelled as association
  lists consulted front-to-back, updated by prepending;
* `uuid` ids and ISO timestamps of stored entries are external
  (nondeterministic) inputs and are omitted from the entry records;
  no claim depends on them.
-/

namespace SmartSurveillance

/-- Python `int(q)` on a rational: truncation toward zero. -/
def pyInt (q : ℚ) : ℤ := if 0 ≤ q then ⌊q⌋ else ⌈q⌉

/-! ## String normalization and keyword matching (from the source)

`videomae_label_to_status` and `label_to_status` both do
`s = label.lower().replace("-", "_").replace(" ", "_")` and then test
`any(k in s for k in keywords)` (substring containment). -/

/-- `label.lower()` as a character list. -/
def lowerChars (s : String) : List Char := s.toList.map Char.toLower

/-- `.lower().replace("-", "_").replace(" ", "_")` as a character list. -/
def normalizeLabel (s : String) : List Char :=
  (s.toList.map Char.toLower).map (fun c => if c = '-' ∨ c = ' ' then '_' else c)

/-- Does `hay` start with `needle`? -/
def leadsWith : List Char → List Char → Bool
  | [], _ => true
  | _ :: _, [] => false
  | a :: as, b :: bs => a = b && leadsWith as bs

/-- Python substring containment `needle in hay`. -/
def containsSub (needle : List Char) : List Char → Bool
  | [] => leadsWith needle []
  | b :: bs => leadsWith needle (b :: bs) || containsSub needle bs

/-- `any(k in s for k in kws)`. -/
def anyKeyword (kws : List String) (s : List Char) : Bool :=
  kws.any (fun k => containsSub k.toList s)

/-- `HIGH_RISK_KEYWORDS` of `videomae_label_to_status` (identical to
`high_kw` of `label_to_status`). -/
def HIGH_RISK_KEYWORDS : List String :=
  ["knife", "gun", "weapon", "bomb", "explosive",
   "assault", "fight", "fighting", "attack", "shoot", "shooting",
   "kidnap", "kidnapping", "robbery", "theft", "snatch"]

/-- `MID_RISK_KEYWORDS` of `videomae_label_to_status` (has "anomaly"). -/
def MID_RISK_KEYWORDS : List String :=
  ["suspicious", "intrusion", "trespass", "perimeter", "threat", "anomaly"]

/-- `mid_kw` of `label_to_status` (no "anomaly"). -/
def mid_kw : List String :=
  ["suspicious", "intrusion", "trespass", "perimeter", "threat"]

/-- `videomae_label_to_status`: falls back to "warning". -/
def videomae_label_to_status (label : String) : String :=
  if anyKeyword HIGH_RISK_KEYWORDS (normalizeLabel label) then "suspicious"
  else if anyKeyword MID_RISK_KEYWORDS (normalizeLabel label) then "warning"
  else "warning"

/-- `label_to_status` (batch pipeline): falls back to "normal". -/
def label_to_status (label : String) : String :=
  if anyKeyword HIGH_RISK_KEYWORDS (normalizeLabel label) then "suspicious"
  else if anyKeyword mid_kw (normalizeLabel label) then "warning"
  else "normal"

/-! ## Event and alert stores -/

/-- A committed event (`add_event`): uuid id and wall-clock time omitted. -/
structure Event where
  type : String
  description : String
  location : String
  status : String
  confidence : ℤ
deriving DecidableEq, Repr

/-- A committed missing-person alert (`add_missing_person_alert`). -/
structure Alert where
  type : String
  name : String
  age : String
  person_id : Option String
  confidence : ℤ
  status : String
deriving DecidableEq, Repr

def MAX_EVENTS : ℕ := 200

def MAX_ALERTS : ℕ := 200

/-- The append-and-evict step shared by both stores:
`L.append(e); if len(L) > maxSize: del L[: len(L) - maxSize]`. -/
def trimAppend (maxSize : ℕ) (log : List α) (e : α) : List α :=
  if maxSize < (log ++ [e]).length then (log ++ [e]).drop ((log ++ [e]).length - maxSize)
  else log ++ [e]

/-- `add_event`: build the event record (confidence stored as
`int(confidence)`, no clamping) and append it to `SUSPICIOUS_EVENTS`
with eviction. Returns the event and the new log. -/
def add_event (log : List Event) (event_type description location status : String)
    (confidence : ℚ) : Event × List Event :=
  let evt : Event := ⟨event_type, description, location, status, pyInt confidence⟩
  (evt, trimAppend MAX_EVENTS log evt)

/-- The alert record built by `add_missing_person_alert`. -/
def mk_alert (name age : String) (confidence : ℚ) (person_id : Option String) : Alert :=
  ⟨"Missing Person Detected", name, age, person_id, pyInt confidence, "suspicious"⟩

/-- `add_missing_person_alert`: append the alert to `MISSING_PERSON_ALERTS`
with eviction, then mirror it into `SUSPICIOUS_EVENTS` via `add_event`.
Returns the alert, the new alert log and the new event log. -/
def add_missing_person_alert (alerts : List Alert) (events : List Event)
    (name age : String) (confidence : ℚ) (person_id : Option String) :
    Alert × List Alert × List Event :=
  let alert := mk_alert name age confidence person_id
  let alerts1 := trimAppend MAX_ALERTS alerts alert
  let r := add_event events ("Missing Person: " ++ name)
    ("Missing person " ++ name ++ " detected") "Detection System" "suspicious" confidence
  (alert, alerts1, r.2)

/-- `/suspicious/reset`: `SUSPICIOUS_EVENTS.clear()` and respond with
`count: 0` (a literal zero, independent of the prior size). -/
def reset_suspicious_events (_events : List Event) : List Event × ℕ :=
  ([], 0)

/-- `/api/missing/alerts/clear`: `MISSING_PERSON_ALERTS.clear()` and
respond with `count: 0`. -/
def clear_missing_alerts (_alerts : List Alert) : List Alert × ℕ :=
  ([], 0)

/-! ## C2: bounded logs -/

lemma trimAppend_length_le {maxSize : ℕ} {log : List α} (h : log.length ≤ maxSize) (e : α) :
    (trimAppend maxSize log e).length ≤ maxSize := by
  unfold trimAppend
  split
  · next hlt => simp only [List.length_drop]; omega
  · next hge => simp only [List.length_append, List.length_cons, List.length_nil] at *; omega

lemma trimAppend_eq_drop {maxSize : ℕ} {log : List α} (e : α) :
    trimAppend maxSize log e = (log ++ [e]).drop ((log ++ [e]).length - maxSize) := by
  unfold trimAppend
  split
  · rfl
  · next hge =>
    have : (log ++ [e]).length - maxSize = 0 := by omega
    rw [this, List.drop_zero]

lemma foldl_trimAppend_eq_drop (maxSize : ℕ) :
    ∀ (es log : List α), log.length ≤ maxSize →
      es.foldl (trimAppend maxSize) log = (log ++ es).drop ((log ++ es).length - maxSize) := by
  intro es
  induction es with
  | nil =>
    intro log h
    simp only [List.foldl_nil, List.append_nil]
    have : log.length - maxSize = 0 := by omega
    rw [this, List.drop_zero]
  | cons e tl ih =>
    intro log h
    have hstep := @trimAppend_eq_drop _ maxSize log e
    have hlen := trimAppend_length_le h e
    rw [List.foldl_cons, ih _ hlen, hstep]
    have hk : (log ++ [e]).length - maxSize ≤ (log ++ [e]).length := Nat.sub_le _ _
    rw [← List.drop_append_of_le_length hk, List.drop_drop]
    have harr : (log ++ [e]) ++ tl = log ++ e :: tl := by
      rw [List.append_assoc, List.singleton_append]
    rw [harr]
    congr 1
    simp only [List.length_append, List.length_cons, List.length_drop, List.length_nil]
    omega

/-- Claim C2: for every sequence of appends through the shared
append-and-evict step (used by `add_event` on `SUSPICIOUS_EVENTS` with
capacity `MAX_EVENTS = 200` and by `add_missing_person_alert` on
`MISSING_PERSON_ALERTS` with capacity `MAX_ALERTS = 200`), after each
append the log holds at most its capacity; on overflow the oldest
entries are evicted from the head until the size equals the capacity,
and the relative order of the remaining entries is preserved: starting
empty, the log is exactly the last 200 appended entries in append
order. The two conjuncts tie `add_event` and `add_missing_person_alert`
to this step. -/
theorem log_capacity_bound :
    (∀ es : List Event,
      (es.foldl (trimAppend MAX_EVENTS) []).length ≤ MAX_EVENTS ∧
      es.foldl (trimAppend MAX_EVENTS) [] = es.drop (es.length - MAX_EVENTS)) ∧
    (∀ as : List Alert,
      (as.foldl (trimAppend MAX_ALERTS) []).length ≤ MAX_ALERTS ∧
      as.foldl (trimAppend MAX_ALERTS) [] = as.drop (as.length - MAX_ALERTS)) ∧
    (∀ (log : List Event) (t d l st : String) (c : ℚ),
      (add_event log t d l st c).2 = trimAppend MAX_EVENTS log (add_event log t d l st c).1) ∧
    (∀ (alerts : List Alert) (events : List Event) (n a : String) (c : ℚ) (pid : Option String),
      (add_missing_person_alert alerts events n a c pid).2.1 =
        trimAppend MAX_ALERTS alerts (add_missing_person_alert alerts events n a c pid).1) := by
  refine ⟨?_, ?_, fun _ _ _ _ _ _ => rfl, fun _ _ _ _ _ _ => rfl⟩
  · intro es
    have h := @foldl_trimAppend_eq_drop Event MAX_EVENTS es [] (by simp)
    simp only [List.nil_append] at h
    refine ⟨?_, h⟩
    rw [h]
    simp only [List.length_drop]
    omega
  · intro as
    have h := @foldl_trimAppend_eq_drop Alert MAX_ALERTS as [] (by simp)
    simp only [List.nil_append] at h
    refine ⟨?_, h⟩
    rw [h]
    simp only [List.length_drop]
    omega

/-! ## C6: reset -/

/-- A concrete event for counterexamples. -/
def evt0 : Event := ⟨"Running", "running person", "Zone A", "suspicious", 85⟩

/-- A concrete alert for counterexamples. -/
def alert0 : Alert := mk_alert "Alice" "30" 80 (some "alice")

/-- Claim C6 is false as stated: `reset_suspicious_events` and
`clear_missing_alerts` respond with `count: 0`, not the prior count.
Counterexample: a log holding one entry is cleared, yet the returned
count is `0 ≠ 1`. -/
theorem reset_count_not_prior_cx :
    (reset_suspicious_events [evt0]).2 = 0 ∧ ([evt0] : List Event).length = 1 ∧
    (clear_missing_alerts [alert0]).2 = 0 ∧ ([alert0] : List Alert).length = 1 ∧
    (0 : ℕ) ≠ 1 :=
  ⟨rfl, rfl, rfl, rfl, by decide⟩

/-- Claim C6 (amended): for every state of the event log (and alert
log), the reset operation removes all entries and returns the count
`0` (the post-reset count), not the count of entries present before
the reset. -/
theorem reset_clears_and_returns_zero :
    (∀ events : List Event, reset_suspicious_events events = ([], 0)) ∧
    (∀ alerts : List Alert, clear_missing_alerts alerts = ([], 0)) :=
  ⟨fun _ => rfl, fun _ => rfl⟩

/-! ## Worker supervision (C1, C7)

Each pipeline owns globals `*_RUNNING`, `*_STOP_EVENT`, `*_THREAD`,
`*_SOURCE`, `*_VIDEO_PATH` guarded by `*_LOCK`. The start/stop
endpoints are modelled as pure transitions on that state taken under
the lock; spawning `threading.Thread(...).start()` is modelled by the
returned `spawned` flag and by installing a fresh thread handle. -/

/-- The per-pipeline mutable globals. -/
structure WorkerCtl where
  running : Bool
  stop_event : Bool
  thread : Option ℕ
  source : String
  video_path : Option String
deriving DecidableEq, Repr

/-- The request body of a start endpoint (`data.get("source")`,
`data.get("video_path")`). -/
structure StartRequest where
  source : Option String
  video_path : Option String
deriving DecidableEq, Repr

/-- External facts a start endpoint consults: `os.path.isfile` and
whether `load_videomae_model()` succeeds; `fresh_thread` is the handle
of a newly spawned thread. -/
structure StartEnv where
  fileExists : String → Bool
  videomae_model_loads : Bool
  fresh_thread : ℕ

/-- Responses of the start endpoints. -/
inductive StartResp where
  | alreadyRunning : StartResp
  | badSource : StartResp
  | videoPathRequired : StartResp
  | videoNotFound : StartResp
  | modelUnavailable : StartResp
  | started (source : String) (video_path : Option String) : StartResp
deriving DecidableEq, Repr

/-- The `running` field of a start response body, when present. -/
def startRespRunning : StartResp → Option Bool
  | .alreadyRunning => some true
  | .started _ _ => some true
  | _ => none

/-- `/api/videomae/start` under `VIDEOMAE_LOCK`. Returns the new
state, the response, and whether a worker thread was spawned. -/
def videomae_start (env : StartEnv) (st : WorkerCtl) (req : StartRequest) :
    WorkerCtl × StartResp × Bool :=
  if st.running then (st, .alreadyRunning, false)
  else if ¬ (req.source = some "webcam" ∨ req.source = some "video") then
    (st, .badSource, false)
  else if req.source = some "video" then
    match req.video_path with
    | none => (st, .videoPathRequired, false)
    | some p =>
      if env.fileExists p then
        -- VIDEOMAE_VIDEO_PATH is assigned before the model check
        let st1 := { st with video_path := some p }
        if env.videomae_model_loads then
          ({ st1 with
              source := "video", stop_event := false, running := true,
              thread := some env.fresh_thread }, .started "video" (some p), true)
        else (st1, .modelUnavailable, false)
      else (st, .videoNotFound, false)
  else
    let st1 := { st with video_path := none }
    if env.videomae_model_loads then
      ({ st1 with
          source := "webcam", stop_event := false, running := true,
          thread := some env.fresh_thread }, .started "webcam" none, true)
    else (st1, .modelUnavailable, false)

/-- `/api/missing/start-detection` under `MISSING_PERSON_LOCK`. Unlike
the VideoMAE endpoint the source defaults to "webcam" and no model is
loaded eagerly. -/
def missing_start_detection (env : StartEnv) (st : WorkerCtl) (req : StartRequest) :
    WorkerCtl × StartResp × Bool :=
  if st.running then (st, .alreadyRunning, false)
  else
    let source := req.source.getD "webcam"
    if ¬ (source = "webcam" ∨ source = "video") then (st, .badSource, false)
    else if source = "video" then
      match req.video_path with
      | none => (st, .videoPathRequired, false)
      | some p =>
        if env.fileExists p then
          ({ st with
              video_path := some p, source := "video", stop_event := false,
              running := true, thread := some env.fresh_thread },
           .started "video" (some p), true)
        else (st, .videoNotFound, false)
    else
      ({ st with
          video_path := none, source := "webcam", stop_event := false,
          running := true, thread := some env.fresh_thread },
       .started "webcam" none, true)

/-- Responses of the stop endpoints. -/
inductive StopResp where
  | alreadyStopped : StopResp
  | stopped : StopResp
deriving DecidableEq, Repr

/-- The `running` field of a stop response body, when present
(`alreadyStopped` responds `{running: false, ...}`; `stopped` responds
`{stopped: true}` with no `running` key). -/
def stopRespRunning : StopResp → Option Bool
  | .alreadyStopped => some false
  | .stopped => none

/-- `/api/videomae/stop` under `VIDEOMAE_LOCK`: when idle respond
unchanged; otherwise set the stop event, flip `running` off, join the
thread best-effort (a timing action with no state effect) and drop the
handle. -/
def videomae_stop (st : WorkerCtl) : WorkerCtl × StopResp :=
  if st.running then
    ({ st with stop_event := true, running := false, thread := none }, .stopped)
  else (st, .alreadyStopped)

/-- `/api/missing/stop-detection` under `MISSING_PERSON_LOCK`: same
transition as `videomae_stop`. -/
def missing_stop_detection (st : WorkerCtl) : WorkerCtl × StopResp :=
  if st.running then
    ({ st with stop_event := true, running := false, thread := none }, .stopped)
  else (st, .alreadyStopped)

/-- Claim C1: for each pipeline, calling start while the pipeline is
running returns the current status unchanged (the response carries
`running = true`, equal to the pipeline's current flag), spawns no
second worker thread, and changes no pipeline state. Both transitions
are taken under the pipeline's lock, so at most one worker per
pipeline can be running. -/
theorem start_already_running_noop (env : StartEnv) (st : WorkerCtl) (req : StartRequest)
    (h : st.running = true) :
    videomae_start env st req = (st, StartResp.alreadyRunning, false) ∧
    missing_start_detection env st req = (st, StartResp.alreadyRunning, false) ∧
    startRespRunning StartResp.alreadyRunning = some st.running := by
  refine ⟨?_, ?_, ?_⟩
  · simp [videomae_start, h]
  · simp [missing_start_detection, h]
  · simp [startRespRunning, h]

/-- Witness for C1 at a concrete running state. -/
theorem start_already_running_noop_witness :
    videomae_start ⟨fun _ => true, true, 7⟩ ⟨true, false, some 3, "webcam", none⟩
        ⟨some "video", some "videos/a.mp4"⟩ =
      (⟨true, false, some 3, "webcam", none⟩, StartResp.alreadyRunning, false) :=
  (start_already_running_noop ⟨fun _ => true, true, 7⟩ ⟨true, false, some 3, "webcam", none⟩
    ⟨some "video", some "videos/a.mp4"⟩ rfl).1

/-- Claim C7: for each pipeline, calling stop while the pipeline is
idle is a no-op: the state (stop signal, thread handle, source
descriptor) is returned unchanged and the response carries
`running = false`. -/
theorem stop_when_idle_noop (st : WorkerCtl) (h : st.running = false) :
    videomae_stop st = (st, StopResp.alreadyStopped) ∧
    missing_stop_detection st = (st, StopResp.alreadyStopped) ∧
    stopRespRunning StopResp.alreadyStopped = some st.running := by
  refine ⟨?_, ?_, ?_⟩
  · simp [videomae_stop, h]
  · simp [missing_stop_detection, h]
  · simp [stopRespRunning, h]

/-- Witness for C7 at a concrete idle state. -/
theorem stop_when_idle_noop_witness :
    videomae_stop ⟨false, true, none, "video", some "videos/a.mp4"⟩ =
      (⟨false, true, none, "video", some "videos/a.mp4"⟩, StopResp.alreadyStopped) :=
  (stop_when_idle_noop ⟨false, true, none, "video", some "videos/a.mp4"⟩ rfl).1

/-! ## Timestamp maximum helpers

Each "last emitted" register of the workers holds the wall-clock time
of the most recent commit of its key (`0` when none). With
nondecreasing sample times that is the maximum of the commit times. -/

/-- Maximum of a list of timestamps, `0` when empty. -/
def maxQ (ts : List ℚ) : ℚ := ts.foldr max 0

lemma maxQ_nil : maxQ ([] : List ℚ) = 0 := rfl

lemma maxQ_cons (a : ℚ) (l : List ℚ) : maxQ (a :: l) = max a (maxQ l) := rfl

lemma le_maxQ_of_mem : ∀ {ts : List ℚ} {x : ℚ}, x ∈ ts → x ≤ maxQ ts := by
  intro ts
  induction ts with
  | nil => intro x hx; cases hx
  | cons a l ih =>
    intro x hx
    rw [maxQ_cons]
    rcases List.mem_cons.mp hx with h | h
    · rw [h]; exact le_max_left _ _
    · exact le_trans (ih h) (le_max_right _ _)

lemma maxQ_cases : ∀ ts : List ℚ, maxQ ts = 0 ∨ maxQ ts ∈ ts := by
  intro ts
  induction ts with
  | nil => left; rfl
  | cons a l ih =>
    rw [maxQ_cons]
    rcases le_total a (maxQ l) with h | h
    · rw [max_eq_right h]
      rcases ih with h0 | hm
      · left; exact h0
      · right; exact List.mem_cons_of_mem _ hm
    · rw [max_eq_left h]
      right
      exact List.mem_cons_self _ _

lemma maxQ_window_iff {ts : List ℚ} {c now : ℚ} (hc : c ≤ now) :
    c ≤ now - maxQ ts ↔ ∀ x ∈ ts, c ≤ now - x := by
  constructor
  · intro h x hx
    have := le_maxQ_of_mem hx
    linarith
  · intro h
    rcases maxQ_cases ts with h0 | hm
    · rw [h0]; simpa using hc
    · exact h _ hm

lemma maxQ_le_of_forall {ts : List ℚ} {b : ℚ} (hb : 0 ≤ b) (h : ∀ x ∈ ts, x ≤ b) :
    maxQ ts ≤ b := by
  rcases maxQ_cases ts with h0 | hm
  · rw [h0]; exact hb
  · exact h _ hm

lemma maxQ_append_singleton (ts : List ℚ) (x : ℚ) :
    maxQ (ts ++ [x]) = max (maxQ ts) (max x 0) := by
  induction ts with
  | nil =>
    rw [List.nil_append, maxQ_cons, maxQ_nil]
    exact (max_eq_right (le_max_right x 0)).symm
  | cons a l ih =>
    have h1 : maxQ ((a :: l) ++ [x]) = max a (maxQ (l ++ [x])) := rfl
    rw [h1, ih, maxQ_cons, max_assoc]

lemma maxQ_append_singleton_eq {ts : List ℚ} {x : ℚ} (hx : 0 ≤ x)
    (h : ∀ y ∈ ts, y ≤ x) : maxQ (ts ++ [x]) = x := by
  rw [maxQ_append_singleton, max_eq_left hx, max_eq_right (maxQ_le_of_forall hx h)]

/-! ## "Last emitted" maps -/

/-- `m.get(k, 0)` for the `label -> timestamp` dicts of the workers. -/
def lookup0 {κ : Type} [DecidableEq κ] : List (κ × ℚ) → κ → ℚ
  | [], _ => 0
  | (k, v) :: rest, q => if k = q then v else lookup0 rest q

/-- `m[k] = v` (prepend; `lookup0` finds the newest binding). -/
def setKey {κ : Type} (m : List (κ × ℚ)) (k : κ) (v : ℚ) : List (κ × ℚ) :=
  (k, v) :: m

lemma lookup0_setKey {κ : Type} [DecidableEq κ] (m : List (κ × ℚ)) (k q : κ) (v : ℚ) :
    lookup0 (setKey m k v) q = if k = q then v else lookup0 m q := rfl

/-! ## C4: the continuous activity-classification worker (`videomae_worker`)

Each loop iteration that classifies a clip yields a sample: the wall
clock `now`, the top label and its softmax probability. The decision
and register updates around `add_event` are modelled exactly; frame
capture and inference are external. -/

/-- One classified clip. -/
structure VSample where
  t : ℚ
  label : String
  top_prob : ℚ
deriving DecidableEq, Repr

/-- The dedup registers of `videomae_worker` (`last_any_emit = 0`,
`last_label_emit = {}` at worker start). -/
structure VState where
  last_any_emit : ℚ
  last_label_emit : List (String × ℚ)
deriving DecidableEq, Repr

def CONF_THRESHOLD : ℚ := mkRat 70 100

def DEDUP_SEC : ℚ := 10

def ANY_COOLDOWN : ℚ := 2

/-- Does `videomae_worker` call `add_event` for this sample? Mirrors
the nested suppression checks of the loop body. -/
def videomae_commit (st : VState) (s : VSample) : Bool :=
  if lowerChars s.label = "normal".toList ∨ s.top_prob < CONF_THRESHOLD then false
  else if s.t - st.last_any_emit < ANY_COOLDOWN then false
  else if DEDUP_SEC ≤ s.t - lookup0 st.last_label_emit s.label then true
  else false

/-- Register updates after a commit:
`last_label_emit[label] = now; last_any_emit = now`. -/
def videomae_step_state (st : VState) (s : VSample) : VState :=
  ⟨s.t, setKey st.last_label_emit s.label s.t⟩

/-- The samples the worker commits (in order), over a run. -/
def videomae_run (st : VState) : List VSample → List VSample
  | [] => []
  | s :: rest =>
    if videomae_commit st s then s :: videomae_run (videomae_step_state st s) rest
    else videomae_run st rest

/-- The event `add_event` builds for a committed sample. -/
def videomae_event_of (source : String) (s : VSample) : Event :=
  ⟨s.label, "VideoMAE detection", if source = "webcam" then "Webcam" else "Uploaded Video",
   videomae_label_to_status s.label, pyInt (s.top_prob * 100)⟩

/-- The claim's trace-level commit condition: the label is not the
reserved "normal", confidence is at least 70%, no commit of any label
within the last 2 seconds, no commit of the same label within the
last 10 seconds — relative to the history of committed samples. -/
def videomae_spec_ok (hist : List VSample) (s : VSample) : Bool :=
  decide (¬ lowerChars s.label = "normal".toList
    ∧ CONF_THRESHOLD ≤ s.top_prob
    ∧ (∀ h ∈ hist, ANY_COOLDOWN ≤ s.t - h.t)
    ∧ (∀ h ∈ hist, h.label = s.label → DEDUP_SEC ≤ s.t - h.t))

/-- The trace of commits the claim predicts. -/
def videomae_spec_run (hist : List VSample) : List VSample → List VSample
  | [] => []
  | s :: rest =>
    if videomae_spec_ok hist s then s :: videomae_spec_run (hist ++ [s]) rest
    else videomae_spec_run hist rest

/-- The committed times of `hist` for a given label. -/
def labelTimes (hist : List VSample) (l : String) : List ℚ :=
  (hist.filter (fun h => decide (h.label = l))).map VSample.t

lemma bool_eq_of_iff {a b : Bool} (h : a = true ↔ b = true) : a = b := by
  cases a <;> cases b <;> simp_all

lemma videomae_commit_iff (st : VState) (s : VSample) :
    videomae_commit st s = true ↔
      (¬ lowerChars s.label = "normal".toList ∧ CONF_THRESHOLD ≤ s.top_prob ∧
       ANY_COOLDOWN ≤ s.t - st.last_any_emit ∧
       DEDUP_SEC ≤ s.t - lookup0 st.last_label_emit s.label) := by
  unfold videomae_commit
  split
  · next h =>
    constructor
    · intro hcontra
      exact absurd hcontra (by simp)
    · rintro ⟨hA, hB, -, -⟩
      rcases h with h | h
      · exact absurd h hA
      · exact absurd hB (not_le.mpr h)
  · next h =>
    push_neg at h
    split
    · next h2 =>
      constructor
      · intro hcontra
        exact absurd hcontra (by simp)
      · rintro ⟨-, -, hC, -⟩
        exact absurd hC (not_le.mpr h2)
    · next h2 =>
      push_neg at h2
      split
      · next h3 =>
        exact ⟨fun _ => ⟨h.1, h.2, h2, h3⟩, fun _ => rfl⟩
      · next h3 =>
        constructor
        · intro hcontra
          exact absurd hcontra (by simp)
        · rintro ⟨-, -, -, hD⟩
          exact absurd hD h3

lemma videomae_spec_ok_iff (hist : List VSample) (s : VSample) :
    videomae_spec_ok hist s = true ↔
      (¬ lowerChars s.label = "normal".toList ∧ CONF_THRESHOLD ≤ s.top_prob ∧
       (∀ h ∈ hist, ANY_COOLDOWN ≤ s.t - h.t) ∧
       (∀ h ∈ hist, h.label = s.label → DEDUP_SEC ≤ s.t - h.t)) := by
  unfold videomae_spec_ok
  exact decide_eq_true_iff

lemma videomae_run_eq_spec_aux :
    ∀ (samples : List VSample) (st : VState) (hist : List VSample),
      (∀ s ∈ samples, DEDUP_SEC ≤ s.t) →
      List.Pairwise (fun a b => a.t ≤ b.t) samples →
      (∀ h ∈ hist, ∀ s ∈ samples, h.t ≤ s.t) →
      st.last_any_emit = maxQ (hist.map VSample.t) →
      (∀ l : String, lookup0 st.last_label_emit l = maxQ (labelTimes hist l)) →
      videomae_run st samples = videomae_spec_run hist samples := by
  intro samples
  induction samples with
  | nil => intro st hist _ _ _ _ _; rfl
  | cons s rest ih =>
    intro st hist hts hpw hle hany hlbl
    have hst10 : DEDUP_SEC ≤ s.t := hts s (List.mem_cons_self _ _)
    have hs10 : (10 : ℚ) ≤ s.t := hst10
    have hs2 : ANY_COOLDOWN ≤ s.t := by
      unfold ANY_COOLDOWN
      linarith
    have hsts : ∀ h ∈ hist, h.t ≤ s.t := fun h hh => hle h hh s (List.mem_cons_self _ _)
    have hs0 : (0 : ℚ) ≤ s.t := by linarith
    have hany_iff : ANY_COOLDOWN ≤ s.t - st.last_any_emit ↔
        ∀ h ∈ hist, ANY_COOLDOWN ≤ s.t - h.t := by
      rw [hany, maxQ_window_iff hs2]
      constructor
      · intro h hh hmem
        exact h _ (List.mem_map_of_mem _ hmem)
      · intro h x hx
        rcases List.mem_map.mp hx with ⟨hh, hhm, rfl⟩
        exact h hh hhm
    have hlbl_iff : DEDUP_SEC ≤ s.t - lookup0 st.last_label_emit s.label ↔
        ∀ h ∈ hist, h.label = s.label → DEDUP_SEC ≤ s.t - h.t := by
      rw [hlbl s.label]
      unfold labelTimes
      rw [maxQ_window_iff hst10]
      constructor
      · intro h hh hhm heq
        exact h _ (List.mem_map_of_mem _ (List.mem_filter.mpr ⟨hhm, by simp [heq]⟩))
      · intro h x hx
        rcases List.mem_map.mp hx with ⟨hh, hhm, rfl⟩
        rcases List.mem_filter.mp hhm with ⟨hmem, hdec⟩
        exact h hh hmem (of_decide_eq_true hdec)
    have hdec : videomae_commit st s = videomae_spec_ok hist s := by
      apply bool_eq_of_iff
      rw [videomae_commit_iff, videomae_spec_ok_iff]
      constructor
      · rintro ⟨h1, h2, h3, h4⟩
        exact ⟨h1, h2, hany_iff.mp h3, hlbl_iff.mp h4⟩
      · rintro ⟨h1, h2, h3, h4⟩
        exact ⟨h1, h2, hany_iff.mpr h3, hlbl_iff.mpr h4⟩
    simp only [videomae_run, videomae_spec_run]
    by_cases hc : videomae_commit st s = true
    · have hcs : videomae_spec_ok hist s = true := hdec ▸ hc
      rw [if_pos hc, if_pos hcs]
      congr 1
      apply ih
      · intro x hx
        exact hts x (List.mem_cons_of_mem _ hx)
      · exact (List.pairwise_cons.mp hpw).2
      · intro h hh x hx
        rcases List.mem_append.mp hh with hh | hh
        · exact hle h hh x (List.mem_cons_of_mem _ hx)
        · rw [List.mem_singleton.mp hh]
          exact (List.pairwise_cons.mp hpw).1 x hx
      · show s.t = maxQ ((hist ++ [s]).map VSample.t)
        rw [List.map_append]
        simp only [List.map_cons, List.map_nil]
        refine (maxQ_append_singleton_eq hs0 ?_).symm
        intro y hy
        rcases List.mem_map.mp hy with ⟨hh, hhm, rfl⟩
        exact hsts hh hhm
      · intro l
        show lookup0 (setKey st.last_label_emit s.label s.t) l = _
        rw [lookup0_setKey]
        unfold labelTimes
        rw [List.filter_append]
        by_cases hl : s.label = l
        · rw [if_pos hl]
          have hfs : List.filter (fun h => decide (h.label = l)) [s] = [s] := by
            simp [hl]
          rw [hfs, List.map_append]
          simp only [List.map_cons, List.map_nil]
          refine (maxQ_append_singleton_eq hs0 ?_).symm
          intro y hy
          rcases List.mem_map.mp hy with ⟨hh, hhm, rfl⟩
          exact hsts hh (List.mem_filter.mp hhm).1
        · rw [if_neg hl]
          have hfs : List.filter (fun h => decide (h.label = l)) [s] = [] := by
            simp [hl]
          rw [hfs, List.append_nil]
          exact hlbl l
    · have hcs : ¬ videomae_spec_ok hist s = true := hdec ▸ hc
      rw [if_neg hc, if_neg hcs]
      apply ih
      · intro x hx
        exact hts x (List.mem_cons_of_mem _ hx)
      · exact (List.pairwise_cons.mp hpw).2
      · intro h hh x hx
        exact hle h hh x (List.mem_cons_of_mem _ hx)
      · exact hany
      · exact hlbl

/-- Claim C4: over any run of the continuous activity-classification
worker whose classification times are wall-clock (at least
`DEDUP_SEC = 10` seconds past the epoch of the registers, as
`time.time()` always is) and nondecreasing, the worker commits an
event for a classified sample if and only if: the label is not the
reserved "normal" label, its confidence is at least 70%, no event of
any label was committed within the last 2 seconds, and no event with
the same label was committed within the last 10 seconds — i.e. the
stateful register-based loop produces exactly the trace predicted by
the history-based cooldown condition. -/
theorem videomae_dedup_policy (samples : List VSample)
    (hts : ∀ s ∈ samples, DEDUP_SEC ≤ s.t)
    (hmono : List.Pairwise (fun a b => a.t ≤ b.t) samples) :
    videomae_run ⟨0, []⟩ samples = videomae_spec_run [] samples :=
  videomae_run_eq_spec_aux samples ⟨0, []⟩ [] hts hmono
    (by intro h hh; cases hh) rfl (fun _ => rfl)

/-- A concrete sample trace for the C4 witness: commit, suppressed by
both cooldowns, commit again after the windows pass. -/
def vsamples0 : List VSample :=
  [⟨100, "Fighting", mkRat 9 10⟩, ⟨102, "Fighting", mkRat 95 100⟩,
   ⟨111, "Fighting", mkRat 9 10⟩]

/-- Witness for C4 on `vsamples0`. -/
theorem videomae_dedup_policy_witness :
    (∀ s ∈ vsamples0, DEDUP_SEC ≤ s.t) ∧
    List.Pairwise (fun a b => a.t ≤ b.t) vsamples0 ∧
    videomae_run ⟨0, []⟩ vsamples0 = videomae_spec_run [] vsamples0 :=
  ⟨by decide, by decide, videomae_dedup_policy vsamples0 (by decide) (by decide)⟩

/-! ## C10: status mappings -/

/-- Claim C10: `videomae_label_to_status` (used by the continuous
activity-classification worker) never returns "normal" — any label
matching no risk keyword falls back to "warning" — so every event the
worker commits has status "suspicious" or "warning"; the batch
pipeline's `label_to_status` instead returns "normal" for a label
matching no keyword (witnessed on "Dancing", where the two mappings
disagree). -/
theorem videomae_status_never_normal :
    (∀ label : String,
      videomae_label_to_status label = "suspicious" ∨
      videomae_label_to_status label = "warning") ∧
    videomae_label_to_status "Dancing" = "warning" ∧
    label_to_status "Dancing" = "normal" ∧
    (∀ (st : VState) (samples : List VSample) (source : String),
      ∀ e ∈ (videomae_run st samples).map (videomae_event_of source),
        e.status = "suspicious" ∨ e.status = "warning") := by
  have hall : ∀ label : String,
      videomae_label_to_status label = "suspicious" ∨
      videomae_label_to_status label = "warning" := by
    intro label
    unfold videomae_label_to_status
    split
    · left; rfl
    · split
      · right; rfl
      · right; rfl
  refine ⟨hall, by decide, by decide, ?_⟩
  intro st samples source e he
  rcases List.mem_map.mp he with ⟨s, -, rfl⟩
  exact hall s.label

/-- Witness for C10: a committed "Fighting" event of the worker has
status "suspicious", and "Dancing" maps to "warning" there while the
batch mapping sends it to "normal". -/
theorem videomae_status_never_normal_witness :
    (videomae_event_of "webcam" ⟨100, "Fighting", mkRat 9 10⟩).status = "suspicious" ∨
    (videomae_event_of "webcam" ⟨100, "Fighting", mkRat 9 10⟩).status = "warning" := by
  apply videomae_status_never_normal.2.2.2 ⟨0, []⟩ [⟨100, "Fighting", mkRat 9 10⟩] "webcam"
  have hc : videomae_commit ⟨0, []⟩ ⟨100, "Fighting", mkRat 9 10⟩ = true := by
    rw [videomae_commit_iff]
    refine ⟨by decide, by decide, ?_, ?_⟩
    · show ANY_COOLDOWN ≤ (100 : ℚ) - (0 : ℚ)
      rw [sub_zero]
      decide
    · show DEDUP_SEC ≤ (100 : ℚ) - lookup0 [] "Fighting"
      show DEDUP_SEC ≤ (100 : ℚ) - (0 : ℚ)
      rw [sub_zero]
      decide
  have hrun : videomae_run ⟨0, []⟩ [⟨100, "Fighting", mkRat 9 10⟩] =
      [⟨100, "Fighting", mkRat 9 10⟩] := by
    simp [videomae_run, hc]
  rw [hrun]
  exact List.mem_map_of_mem _ (List.mem_cons_self _ _)

/-! ## C5 / C3: the continuous identity-matching worker
(`missing_person_worker`)

Each processed face yields a sample: the wall clock, the recognizer's
predicted label id and match distance. Face detection, cropping and
`recognizer.predict` are external. -/

/-- One face processed by the worker (recognizer output attached). -/
structure MSample where
  t : ℚ
  label : ℕ
  distance : ℚ
deriving DecidableEq, Repr

/-- External read-only data: `mp_label_mapping` (`labels.npy`) and
`persons.json` (`key ↦ (name, age)`). -/
structure MPEnv where
  label_mapping : List (ℕ × String)
  persons : List (String × String × String)
deriving Repr

/-- `label_mapping.get(label, "unknown")`. -/
def mp_person_key (env : MPEnv) (label : ℕ) : String :=
  match env.label_mapping.find? (fun p => p.1 = label) with
  | some p => p.2
  | none => "unknown"

/-- `persons.get(person_key, {})`. -/
def mp_person_meta (env : MPEnv) (key : String) : Option (String × String) :=
  match env.persons.find? (fun p => p.1 = key) with
  | some p => some p.2
  | none => none

/-- `person_meta.get("name", person_key)`. -/
def mp_person_name (env : MPEnv) (key : String) : String :=
  match mp_person_meta env key with
  | some m => m.1
  | none => key

/-- `person_meta.get("age", "N/A")`. -/
def mp_person_age (env : MPEnv) (key : String) : String :=
  match mp_person_meta env key with
  | some m => m.2
  | none => "N/A"

/-- The dedup key the worker uses: the resolved person name. -/
def mp_name_of (env : MPEnv) (s : MSample) : String :=
  mp_person_name env (mp_person_key env s.label)

/-- The dedup register of `missing_person_worker`
(`last_person_emit = {}` at worker start). -/
structure MPState where
  last_person_emit : List (String × ℚ)
deriving DecidableEq, Repr

/-- `DISTANCE_THRESHOLD` of `missing_person_worker` (the continuous
loop; the single-image endpoint uses 100 instead). -/
def WORKER_DISTANCE_THRESHOLD : ℚ := 110

/-- `DEDUP_SEC` of `missing_person_worker` (5 minutes). -/
def MP_DEDUP_SEC : ℚ := 300

/-- Does `missing_person_worker` call `add_missing_person_alert` for
this face? -/
def mp_commit (env : MPEnv) (st : MPState) (s : MSample) : Bool :=
  if s.distance < WORKER_DISTANCE_THRESHOLD then
    decide (MP_DEDUP_SEC ≤ s.t - lookup0 st.last_person_emit (mp_name_of env s))
  else false

/-- Register update after a commit: `last_person_emit[person_name] = now`. -/
def mp_step_state (env : MPEnv) (st : MPState) (s : MSample) : MPState :=
  ⟨setKey st.last_person_emit (mp_name_of env s) s.t⟩

/-- The faces for which the worker commits an alert (in order). -/
def mp_run (env : MPEnv) (st : MPState) : List MSample → List MSample
  | [] => []
  | s :: rest =>
    if mp_commit env st s then s :: mp_run env (mp_step_state env st s) rest
    else mp_run env st rest

/-- The full effect of one accepted face on the logs: the alert built
with `confidence = int(100 - distance)` (no clamping) is committed via
`add_missing_person_alert` when the dedup window allows it. -/
def mp_face_step (env : MPEnv) (st : MPState) (alerts : List Alert) (events : List Event)
    (s : MSample) : MPState × List Alert × List Event :=
  if s.distance < WORKER_DISTANCE_THRESHOLD then
    if MP_DEDUP_SEC ≤ s.t - lookup0 st.last_person_emit (mp_name_of env s) then
      (⟨setKey st.last_person_emit (mp_name_of env s) s.t⟩,
       (add_missing_person_alert alerts events (mp_name_of env s)
         (mp_person_age env (mp_person_key env s.label))
         ((pyInt (100 - s.distance) : ℤ) : ℚ) (some (mp_person_key env s.label))).2)
    else (st, alerts, events)
  else (st, alerts, events)

/-- The claim's trace-level commit condition for the identity worker:
the face matches (distance below the threshold) and no alert for the
same identity was committed less than 300 seconds ago. -/
def mp_spec_ok (env : MPEnv) (hist : List MSample) (s : MSample) : Bool :=
  decide (s.distance < WORKER_DISTANCE_THRESHOLD ∧
    ∀ h ∈ hist, mp_name_of env h = mp_name_of env s → MP_DEDUP_SEC ≤ s.t - h.t)

/-- The trace of alerts the claim predicts. -/
def mp_spec_run (env : MPEnv) (hist : List MSample) : List MSample → List MSample
  | [] => []
  | s :: rest =>
    if mp_spec_ok env hist s then s :: mp_spec_run env (hist ++ [s]) rest
    else mp_spec_run env hist rest

/-- The committed times of `hist` for a given person name. -/
def nameTimes (env : MPEnv) (hist : List MSample) (n : String) : List ℚ :=
  (hist.filter (fun h => decide (mp_name_of env h = n))).map MSample.t

lemma mp_commit_iff (env : MPEnv) (st : MPState) (s : MSample) :
    mp_commit env st s = true ↔
      (s.distance < WORKER_DISTANCE_THRESHOLD ∧
       MP_DEDUP_SEC ≤ s.t - lookup0 st.last_person_emit (mp_name_of env s)) := by
  unfold mp_commit
  split
  · next h =>
    rw [decide_eq_true_iff]
    exact ⟨fun hd => ⟨h, hd⟩, fun hd => hd.2⟩
  · next h =>
    constructor
    · intro hcontra
      exact absurd hcontra (by simp)
    · rintro ⟨hd, -⟩
      exact absurd hd h

lemma mp_spec_ok_iff (env : MPEnv) (hist : List MSample) (s : MSample) :
    mp_spec_ok env hist s = true ↔
      (s.distance < WORKER_DISTANCE_THRESHOLD ∧
       ∀ h ∈ hist, mp_name_of env h = mp_name_of env s → MP_DEDUP_SEC ≤ s.t - h.t) := by
  unfold mp_spec_ok
  exact decide_eq_true_iff

lemma mp_run_eq_spec_aux (env : MPEnv) :
    ∀ (samples : List MSample) (st : MPState) (hist : List MSample),
      (∀ s ∈ samples, MP_DEDUP_SEC ≤ s.t) →
      List.Pairwise (fun a b => a.t ≤ b.t) samples →
      (∀ h ∈ hist, ∀ s ∈ samples, h.t ≤ s.t) →
      (∀ n : String, lookup0 st.last_person_emit n = maxQ (nameTimes env hist n)) →
      mp_run env st samples = mp_spec_run env hist samples := by
  intro samples
  induction samples with
  | nil => intro st hist _ _ _ _; rfl
  | cons s rest ih =>
    intro st hist hts hpw hle hname
    have hst300 : MP_DEDUP_SEC ≤ s.t := hts s (List.mem_cons_self _ _)
    have hs300 : (300 : ℚ) ≤ s.t := hst300
    have hsts : ∀ h ∈ hist, h.t ≤ s.t := fun h hh => hle h hh s (List.mem_cons_self _ _)
    have hs0 : (0 : ℚ) ≤ s.t := by linarith
    have hwin_iff : MP_DEDUP_SEC ≤ s.t - lookup0 st.last_person_emit (mp_name_of env s) ↔
        ∀ h ∈ hist, mp_name_of env h = mp_name_of env s → MP_DEDUP_SEC ≤ s.t - h.t := by
      rw [hname (mp_name_of env s)]
      unfold nameTimes
      rw [maxQ_window_iff hst300]
      constructor
      · intro h hh hhm heq
        exact h _ (List.mem_map_of_mem _ (List.mem_filter.mpr ⟨hhm, by simp [heq]⟩))
      · intro h x hx
        rcases List.mem_map.mp hx with ⟨hh, hhm, rfl⟩
        rcases List.mem_filter.mp hhm with ⟨hmem, hdec⟩
        exact h hh hmem (of_decide_eq_true hdec)
    have hdec : mp_commit env st s = mp_spec_ok env hist s := by
      apply bool_eq_of_iff
      rw [mp_commit_iff, mp_spec_ok_iff]
      constructor
      · rintro ⟨h1, h2⟩
        exact ⟨h1, hwin_iff.mp h2⟩
      · rintro ⟨h1, h2⟩
        exact ⟨h1, hwin_iff.mpr h2⟩
    simp only [mp_run, mp_spec_run]
    by_cases hc : mp_commit env st s = true
    · have hcs : mp_spec_ok env hist s = true := hdec ▸ hc
      rw [if_pos hc, if_pos hcs]
      congr 1
      apply ih
      · intro x hx
        exact hts x (List.mem_cons_of_mem _ hx)
      · exact (List.pairwise_cons.mp hpw).2
      · intro h hh x hx
        rcases List.mem_append.mp hh with hh | hh
        · exact hle h hh x (List.mem_cons_of_mem _ hx)
        · rw [List.mem_singleton.mp hh]
          exact (List.pairwise_cons.mp hpw).1 x hx
      · intro n
        show lookup0 (setKey st.last_person_emit (mp_name_of env s) s.t) n = _
        rw [lookup0_setKey]
        unfold nameTimes
        rw [List.filter_append]
        by_cases hl : mp_name_of env s = n
        · rw [if_pos hl]
          have hfs : List.filter (fun h => decide (mp_name_of env h = n)) [s] = [s] := by
            simp [hl]
          rw [hfs, List.map_append]
          simp only [List.map_cons, List.map_nil]
          refine (maxQ_append_singleton_eq hs0 ?_).symm
          intro y hy
          rcases List.mem_map.mp hy with ⟨hh, hhm, rfl⟩
          exact hsts hh (List.mem_filter.mp hhm).1
        · rw [if_neg hl]
          have hfs : List.filter (fun h => decide (mp_name_of env h = n)) [s] = [] := by
            simp [hl]
          rw [hfs, List.append_nil]
          exact hname n
    · have hcs : ¬ mp_spec_ok env hist s = true := hdec ▸ hc
      rw [if_neg hc, if_neg hcs]
      apply ih
      · intro x hx
        exact hts x (List.mem_cons_of_mem _ hx)
      · exact (List.pairwise_cons.mp hpw).2
      · intro h hh x hx
        exact hle h hh x (List.mem_cons_of_mem _ hx)
      · exact hname

/-- Claim C5: over any run of the continuous identity-matching worker
with wall-clock (at least `MP_DEDUP_SEC = 300` seconds past the epoch
of the registers, as `time.time()` always is) nondecreasing face
times, an alert is committed for a matched face if and only if the
face's distance is below the worker's threshold and no alert for the
same identity was committed less than 300 seconds before: a match of
the same identity inside the 300-second window commits nothing, one
at or past the window boundary commits again. -/
theorem missing_person_dedup_policy (env : MPEnv) (samples : List MSample)
    (hts : ∀ s ∈ samples, MP_DEDUP_SEC ≤ s.t)
    (hmono : List.Pairwise (fun a b => a.t ≤ b.t) samples) :
    mp_run env ⟨[]⟩ samples = mp_spec_run env [] samples :=
  mp_run_eq_spec_aux env samples ⟨[]⟩ [] hts hmono
    (by intro h hh; cases hh) (fun _ => rfl)

/-- A concrete environment for witnesses and counterexamples. -/
def env0 : MPEnv := ⟨[(0, "alice")], [("alice", "Alice", "30")]⟩

/-- A concrete face-sample trace for the C5 witness: commit, same
identity suppressed inside the 300 s window, committed again at the
window boundary. -/
def msamples0 : List MSample :=
  [⟨1000, 0, 50⟩, ⟨1100, 0, 40⟩, ⟨1300, 0, 50⟩]

/-- Witness for C5 on `msamples0`. -/
theorem missing_person_dedup_policy_witness :
    (∀ s ∈ msamples0, MP_DEDUP_SEC ≤ s.t) ∧
    List.Pairwise (fun a b => a.t ≤ b.t) msamples0 ∧
    mp_run env0 ⟨[]⟩ msamples0 = mp_spec_run env0 [] msamples0 :=
  ⟨by decide, by decide, missing_person_dedup_policy env0 msamples0 (by decide) (by decide)⟩

/-! ## C3: stored confidence is not clamped -/

lemma pyInt_intCast (n : ℤ) : pyInt ((n : ℤ) : ℚ) = n := by
  unfold pyInt
  split
  · exact Int.floor_intCast n
  · exact Int.ceil_intCast n

/-- The alert record the continuous identity worker commits for an
accepted face (its stored confidence is `int(100 - distance)`). -/
def mp_alert_of (env : MPEnv) (s : MSample) : Alert :=
  mk_alert (mp_name_of env s) (mp_person_age env (mp_person_key env s.label))
    ((pyInt (100 - s.distance) : ℤ) : ℚ) (some (mp_person_key env s.label))

/-- The mirrored event the same commit appends to the event log. -/
def mp_event_of (env : MPEnv) (s : MSample) : Event :=
  ⟨"Missing Person: " ++ mp_name_of env s,
   "Missing person " ++ mp_name_of env s ++ " detected",
   "Detection System", "suspicious", pyInt ((pyInt (100 - s.distance) : ℤ) : ℚ)⟩

lemma mp_face_step_commit_eq (env : MPEnv) (st : MPState) (alerts : List Alert)
    (events : List Event) (s : MSample) (hc : mp_commit env st s = true) :
    mp_face_step env st alerts events s =
      (⟨setKey st.last_person_emit (mp_name_of env s) s.t⟩,
       trimAppend MAX_ALERTS alerts (mp_alert_of env s),
       trimAppend MAX_EVENTS events (mp_event_of env s)) := by
  rcases (mp_commit_iff env st s).mp hc with ⟨h1, h2⟩
  unfold mp_face_step
  rw [if_pos h1, if_pos h2]
  rfl

lemma mp_commit_1000_105 : mp_commit env0 ⟨[]⟩ ⟨1000, 0, 105⟩ = true := by
  rw [mp_commit_iff]
  refine ⟨by decide, ?_⟩
  show MP_DEDUP_SEC ≤ (1000 : ℚ) - (0 : ℚ)
  rw [sub_zero]
  decide

lemma pyInt_100_sub_105 : pyInt ((100 : ℚ) - 105) = -5 := by
  have hsub : (100 : ℚ) - 105 = ((-5 : ℤ) : ℚ) := by norm_num
  rw [hsub, pyInt_intCast]

/-- Claim C3 is false as stated: at a face-match distance of 105
(accepted by the continuous worker's threshold of 110), the committed
alert and its mirrored event store confidence `int(100 - 105) = -5`,
which lies outside `[0, 100]` — nothing clamps it. -/
theorem confidence_not_clamped_cx :
    mp_commit env0 ⟨[]⟩ ⟨1000, 0, 105⟩ = true ∧
    (mp_face_step env0 ⟨[]⟩ [] [] ⟨1000, 0, 105⟩).2.1.map Alert.confidence = [-5] ∧
    (mp_face_step env0 ⟨[]⟩ [] [] ⟨1000, 0, 105⟩).2.2.map Event.confidence = [-5] ∧
    ¬ (0 : ℤ) ≤ -5 := by
  have hstep := mp_face_step_commit_eq env0 ⟨[]⟩ [] [] ⟨1000, 0, 105⟩ mp_commit_1000_105
  have htrimA : trimAppend MAX_ALERTS ([] : List Alert) (mp_alert_of env0 ⟨1000, 0, 105⟩) =
      [mp_alert_of env0 ⟨1000, 0, 105⟩] := by
    simp [trimAppend, MAX_ALERTS]
  have htrimE : trimAppend MAX_EVENTS ([] : List Event) (mp_event_of env0 ⟨1000, 0, 105⟩) =
      [mp_event_of env0 ⟨1000, 0, 105⟩] := by
    simp [trimAppend, MAX_EVENTS]
  have hconf : (mp_alert_of env0 ⟨1000, 0, 105⟩).confidence = -5 := by
    show pyInt ((pyInt ((100 : ℚ) - 105) : ℤ) : ℚ) = -5
    rw [pyInt_100_sub_105, pyInt_intCast]
  have hconfE : (mp_event_of env0 ⟨1000, 0, 105⟩).confidence = -5 := by
    show pyInt ((pyInt ((100 : ℚ) - 105) : ℤ) : ℚ) = -5
    rw [pyInt_100_sub_105, pyInt_intCast]
  refine ⟨mp_commit_1000_105, ?_, ?_, by decide⟩
  · rw [hstep]
    show (trimAppend MAX_ALERTS [] (mp_alert_of env0 ⟨1000, 0, 105⟩)).map Alert.confidence = [-5]
    rw [htrimA, List.map_cons, List.map_nil, hconf]
  · rw [hstep]
    show (trimAppend MAX_EVENTS [] (mp_event_of env0 ⟨1000, 0, 105⟩)).map Event.confidence = [-5]
    rw [htrimE, List.map_cons, List.map_nil, hconfE]

/-- Claim C3 (amended): stored confidence is `int(confidence)` with no
clamping: `add_event` stores exactly `int(c)` for the `c` it is
passed, and an identity-match alert committed by the continuous
pipeline for an accepted distance `d` (`0 ≤ d <
WORKER_DISTANCE_THRESHOLD = 110`) stores `int(100 - d)`, which lies
in `[-9, 100]` — in particular it is negative (not clamped to 0)
whenever `d ≥ 101`, even though the match threshold accepted the
face. -/
theorem mp_alert_confidence_unclamped (env : MPEnv) (st : MPState)
    (alerts : List Alert) (events : List Event) (s : MSample)
    (h0 : 0 ≤ s.distance) (hc : mp_commit env st s = true) :
    (mp_face_step env st alerts events s).2.1 =
      trimAppend MAX_ALERTS alerts (mp_alert_of env s) ∧
    (mp_alert_of env s).confidence = pyInt (100 - s.distance) ∧
    -9 ≤ (mp_alert_of env s).confidence ∧
    (mp_alert_of env s).confidence ≤ 100 ∧
    (∀ (log : List Event) (ty de lo sa : String) (c : ℚ),
      ((add_event log ty de lo sa c).1).confidence = pyInt c) := by
  have hd : s.distance < WORKER_DISTANCE_THRESHOLD := ((mp_commit_iff env st s).mp hc).1
  have hd110 : s.distance < 110 := hd
  have hcval : (mp_alert_of env s).confidence = pyInt (100 - s.distance) := by
    show pyInt ((pyInt ((100 : ℚ) - s.distance) : ℤ) : ℚ) = pyInt (100 - s.distance)
    rw [pyInt_intCast]
  have hbounds : -9 ≤ pyInt (100 - s.distance) ∧ pyInt (100 - s.distance) ≤ 100 := by
    unfold pyInt
    split
    · next hpos =>
      constructor
      · have : (0 : ℤ) ≤ ⌊(100 : ℚ) - s.distance⌋ := Int.floor_nonneg.mpr hpos
        omega
      · have : ⌊(100 : ℚ) - s.distance⌋ ≤ 100 := by
          rw [Int.floor_le_iff]
          push_cast
          linarith
        exact this
    · next hneg =>
      push_neg at hneg
      constructor
      · have : (-10 : ℤ) < ⌈(100 : ℚ) - s.distance⌉ := by
          rw [Int.lt_ceil]
          push_cast
          linarith
        omega
      · have : ⌈(100 : ℚ) - s.distance⌉ ≤ 0 := by
          rw [Int.ceil_le]
          push_cast
          linarith
        omega
  refine ⟨?_, hcval, hcval ▸ hbounds.1, hcval ▸ hbounds.2, fun _ _ _ _ _ _ => rfl⟩
  rw [mp_face_step_commit_eq env st alerts events s hc]

/-- Witness for the amended C3 at distance 105: the committed alert's
stored confidence is in `[-9, 100]` and equals `int(100 - 105)`. -/
theorem mp_alert_confidence_unclamped_witness :
    (mp_alert_of env0 ⟨1000, 0, 105⟩).confidence = pyInt ((100 : ℚ) - 105) ∧
    -9 ≤ (mp_alert_of env0 ⟨1000, 0, 105⟩).confidence ∧
    (mp_alert_of env0 ⟨1000, 0, 105⟩).confidence ≤ 100 := by
  have h := mp_alert_confidence_unclamped env0 ⟨[]⟩ [] [] ⟨1000, 0, 105⟩
    (by decide) mp_commit_1000_105
  exact ⟨h.2.1, h.2.2.1, h.2.2.2.1⟩

/-! ## C9: the single-image identity-match endpoint
(`missing_detect_image`)

Each detected face comes with the recognizer's prediction. The loop
collects one detection entry per face, tracks the best match
(strictly smallest distance, `best_distance` starting at 999), and
afterwards commits exactly one alert — for the best match — when any
face matched. -/

/-- A face of the uploaded frame with its recognizer prediction. -/
structure Face where
  bbox : ℕ × ℕ × ℕ × ℕ
  label : ℕ
  distance : ℚ
deriving DecidableEq, Repr

/-- One entry of the endpoint's `detections` response list. -/
inductive Detection where
  | matched (name age : String) (confidence : ℤ) (person_id : String)
      (bbox : ℕ × ℕ × ℕ × ℕ) : Detection
  | unmatched (confidence : ℤ) (bbox : ℕ × ℕ × ℕ × ℕ) : Detection
deriving DecidableEq, Repr

/-- `DISTANCE_THRESHOLD` of `missing_detect_image` (100; the
continuous worker uses 110). -/
def IMG_DISTANCE_THRESHOLD : ℚ := 100

/-- The detection entry built for one face. A non-match stores
`int(max(0, 100 - distance))`; a match stores `int(100 - distance)`. -/
def mdi_detection_of (env : MPEnv) (f : Face) : Detection :=
  if f.distance < IMG_DISTANCE_THRESHOLD then
    .matched (mp_person_name env (mp_person_key env f.label))
      (mp_person_age env (mp_person_key env f.label))
      (pyInt (100 - f.distance)) (mp_person_key env f.label) f.bbox
  else
    .unmatched (pyInt (max 0 (100 - f.distance))) f.bbox

/-- The face loop of the endpoint: accumulates detections and tracks
the best match (`best_match`, `best_distance`). -/
def mdi_loop (env : MPEnv) : List Face → List Detection → Option Detection → ℚ →
    List Detection × Option Detection × ℚ
  | [], dets, best, bd => (dets, best, bd)
  | f :: rest, dets, best, bd =>
    if f.distance < IMG_DISTANCE_THRESHOLD then
      if f.distance < bd then
        mdi_loop env rest (dets ++ [mdi_detection_of env f])
          (some (mdi_detection_of env f)) f.distance
      else mdi_loop env rest (dets ++ [mdi_detection_of env f]) best bd
    else mdi_loop env rest (dets ++ [mdi_detection_of env f]) best bd

/-- The alerts committed for the final `best_match` (via
`add_missing_person_alert`): one for a match, none otherwise. -/
def mdi_alert_of : Detection → List Alert
  | .matched name age conf pid _ => [mk_alert name age ((conf : ℤ) : ℚ) (some pid)]
  | .unmatched _ _ => []

/-- `missing_detect_image` on a decoded frame's faces: the detections
list, the best match, and the committed alerts. -/
def missing_detect_image (env : MPEnv) (faces : List Face) :
    List Detection × Option Detection × List Alert :=
  ((mdi_loop env faces [] none 999).1,
   (mdi_loop env faces [] none 999).2.1,
   match (mdi_loop env faces [] none 999).2.1 with
   | some b => mdi_alert_of b
   | none => [])

lemma mdi_loop_spec (env : MPEnv) :
    ∀ (faces : List Face) (dets : List Detection) (best : Option Detection) (bd : ℚ),
      (mdi_loop env faces dets best bd).1.length = dets.length + faces.length ∧
      (((mdi_loop env faces dets best bd).2.1 = best ∧
        (mdi_loop env faces dets best bd).2.2 = bd ∧
        (∀ f ∈ faces, f.distance < IMG_DISTANCE_THRESHOLD → bd ≤ f.distance)) ∨
       (∃ f ∈ faces, f.distance < IMG_DISTANCE_THRESHOLD ∧ f.distance < bd ∧
         (mdi_loop env faces dets best bd).2.1 = some (mdi_detection_of env f) ∧
         (mdi_loop env faces dets best bd).2.2 = f.distance ∧
         (∀ g ∈ faces, g.distance < IMG_DISTANCE_THRESHOLD → f.distance ≤ g.distance))) := by
  intro faces
  induction faces with
  | nil =>
    intro dets best bd
    refine ⟨by simp [mdi_loop], Or.inl ⟨rfl, rfl, ?_⟩⟩
    intro f hf
    cases hf
  | cons f rest ih =>
    intro dets best bd
    by_cases hm : f.distance < IMG_DISTANCE_THRESHOLD
    · by_cases hb : f.distance < bd
      · have hloop : mdi_loop env (f :: rest) dets best bd =
            mdi_loop env rest (dets ++ [mdi_detection_of env f])
              (some (mdi_detection_of env f)) f.distance := by
          simp only [mdi_loop, if_pos hm, if_pos hb]
        rcases ih (dets ++ [mdi_detection_of env f]) (some (mdi_detection_of env f))
            f.distance with ⟨hlen, hcase⟩
        constructor
        · rw [hloop, hlen]
          simp only [List.length_append, List.length_cons, List.length_nil]
          omega
        · right
          rcases hcase with ⟨e1, e2, hall⟩ | ⟨fr, hfr, hfrm, hfrlt, e1, e2, hmin⟩
          · refine ⟨f, List.mem_cons_self _ _, hm, hb, ?_, ?_, ?_⟩
            · rw [hloop, e1]
            · rw [hloop, e2]
            · intro g hg hgm
              rcases List.mem_cons.mp hg with h | h
              · rw [h]
              · exact hall g h hgm
          · refine ⟨fr, List.mem_cons_of_mem _ hfr, hfrm, lt_trans hfrlt hb, ?_, ?_, ?_⟩
            · rw [hloop, e1]
            · rw [hloop, e2]
            · intro g hg hgm
              rcases List.mem_cons.mp hg with h | h
              · rw [h]
                exact le_of_lt hfrlt
              · exact hmin g h hgm
      · have hloop : mdi_loop env (f :: rest) dets best bd =
            mdi_loop env rest (dets ++ [mdi_detection_of env f]) best bd := by
          simp only [mdi_loop, if_pos hm, if_neg hb]
        rcases ih (dets ++ [mdi_detection_of env f]) best bd with ⟨hlen, hcase⟩
        constructor
        · rw [hloop, hlen]
          simp only [List.length_append, List.length_cons, List.length_nil]
          omega
        · rcases hcase with ⟨e1, e2, hall⟩ | ⟨fr, hfr, hfrm, hfrlt, e1, e2, hmin⟩
          · left
            refine ⟨by rw [hloop, e1], by rw [hloop, e2], ?_⟩
            intro g hg hgm
            rcases List.mem_cons.mp hg with h | h
            · rw [h]
              exact not_lt.mp hb
            · exact hall g h hgm
          · right
            refine ⟨fr, List.mem_cons_of_mem _ hfr, hfrm, hfrlt, by rw [hloop, e1],
              by rw [hloop, e2], ?_⟩
            intro g hg hgm
            rcases List.mem_cons.mp hg with h | h
            · rw [h]
              exact le_of_lt (lt_of_lt_of_le hfrlt (not_lt.mp hb))
            · exact hmin g h hgm
    · have hloop : mdi_loop env (f :: rest) dets best bd =
          mdi_loop env rest (dets ++ [mdi_detection_of env f]) best bd := by
        simp only [mdi_loop, if_neg hm]
      rcases ih (dets ++ [mdi_detection_of env f]) best bd with ⟨hlen, hcase⟩
      constructor
      · rw [hloop, hlen]
        simp only [List.length_append, List.length_cons, List.length_nil]
        omega
      · rcases hcase with ⟨e1, e2, hall⟩ | ⟨fr, hfr, hfrm, hfrlt, e1, e2, hmin⟩
        · left
          refine ⟨by rw [hloop, e1], by rw [hloop, e2], ?_⟩
          intro g hg hgm
          rcases List.mem_cons.mp hg with h | h
          · rw [h] at hgm
            exact absurd hgm hm
          · exact hall g h hgm
        · right
          refine ⟨fr, List.mem_cons_of_mem _ hfr, hfrm, hfrlt, by rw [hloop, e1],
            by rw [hloop, e2], ?_⟩
          intro g hg hgm
          rcases List.mem_cons.mp hg with h | h
          · rw [h] at hgm
            exact absurd hgm hm
          · exact hmin g h hgm

/-- Claim C9: for a frame with at least one face matching below the
endpoint's distance threshold, the endpoint returns one detection
entry per face, commits exactly one alert, and that alert is for a
match with the smallest distance among the matching faces. -/
theorem detect_image_best_match_alert (env : MPEnv) (faces : List Face)
    (hmatch : ∃ f ∈ faces, f.distance < IMG_DISTANCE_THRESHOLD) :
    (missing_detect_image env faces).1.length = faces.length ∧
    (missing_detect_image env faces).2.2.length = 1 ∧
    (∃ f ∈ faces, f.distance < IMG_DISTANCE_THRESHOLD ∧
      (∀ g ∈ faces, g.distance < IMG_DISTANCE_THRESHOLD → f.distance ≤ g.distance) ∧
      (missing_detect_image env faces).2.2 = mdi_alert_of (mdi_detection_of env f)) := by
  rcases mdi_loop_spec env faces [] none 999 with ⟨hlen, hcase⟩
  rcases hmatch with ⟨f0, hf0, hf0m⟩
  rcases hcase with ⟨-, -, hall⟩ | ⟨f, hf, hfm, -, e1, -, hmin⟩
  · have h999 : (999 : ℚ) ≤ f0.distance := hall f0 hf0 hf0m
    have h100 : f0.distance < 100 := hf0m
    linarith
  · have hmatched : mdi_detection_of env f =
        .matched (mp_person_name env (mp_person_key env f.label))
          (mp_person_age env (mp_person_key env f.label))
          (pyInt (100 - f.distance)) (mp_person_key env f.label) f.bbox := by
      unfold mdi_detection_of
      rw [if_pos hfm]
    have halerts : (missing_detect_image env faces).2.2 =
        mdi_alert_of (mdi_detection_of env f) := by
      show (match (mdi_loop env faces [] none 999).2.1 with
            | some b => mdi_alert_of b
            | none => ([] : List Alert)) = mdi_alert_of (mdi_detection_of env f)
      rw [e1]
    refine ⟨?_, ?_, f, hf, hfm, hmin, halerts⟩
    · show (mdi_loop env faces [] none 999).1.length = faces.length
      rw [hlen]
      simp
    · rw [halerts, hmatched]
      rfl

/-- A concrete face list for the C9 witness. -/
def faces0 : List Face := [⟨(0, 0, 10, 10), 0, 50⟩]

/-- Witness for C9 on `faces0`. -/
theorem detect_image_best_match_alert_witness :
    (∃ f ∈ faces0, f.distance < IMG_DISTANCE_THRESHOLD) ∧
    (missing_detect_image env0 faces0).1.length = faces0.length ∧
    (missing_detect_image env0 faces0).2.2.length = 1 :=
  ⟨by decide, (detect_image_best_match_alert env0 faces0 (by decide)).1,
   (detect_image_best_match_alert env0 faces0 (by decide)).2.1⟩

/-! ## C8: CentroidTracker staleness removal

Modelled from the spec: the repository sources under version control
contain no CentroidTracker implementation (the tracking/rule-engine
component is described only by the specification), so the tracker is
modelled from spec sections 3 and 4.1: per-frame `update` greedily
matches each detection to the nearest unused track with centroid
distance below the match threshold (first-encountered wins ties),
spawns fresh tracks for unmatched detections, and afterwards removes
every track whose `lastSeenTime` is more than the 10-second staleness
timeout ago. Distances are compared squared, which is equivalent for
nonnegative thresholds. -/

/-- A track (spec section 3). -/
structure Track where
  id : ℕ
  pos : ℚ × ℚ
  prevPos : ℚ × ℚ
  startTime : ℚ
  lastSeenTime : ℚ
deriving DecidableEq, Repr

/-- A tracker instance: its tracks, the next fresh id, and the squared
match threshold (90² for people, 80² for objects). -/
structure Tracker where
  tracks : List Track
  nextId : ℕ
  matchThreshold2 : ℚ
deriving DecidableEq, Repr

/-- Modelled from the spec: the staleness timeout (10 s). -/
def STALE_TIMEOUT : ℚ := 10

/-- Squared Euclidean distance between two points. -/
def dist2 (a b : ℚ × ℚ) : ℚ := (a.1 - b.1) ^ 2 + (a.2 - b.2) ^ 2

/-- Modelled from the spec: the nearest track not yet used this frame
whose squared centroid distance to the detection is below the squared
threshold; earlier tracks win ties. -/
def nearestFree (tracks : List Track) (used : List ℕ) (d : ℚ × ℚ) (thr2 : ℚ) :
    Option Track :=
  tracks.foldl
    (fun best tr =>
      if used.contains tr.id then best
      else if dist2 tr.pos d < thr2 then
        match best with
        | none => some tr
        | some b => if dist2 tr.pos d < dist2 b.pos d then some tr else some b
      else best)
    none

/-- Modelled from the spec: assign one detection — update the matched
track's position and `lastSeenTime`, or spawn a fresh track. -/
def assignDetection (tk : Tracker) (used : List ℕ) (d : ℚ × ℚ) (now : ℚ) :
    Tracker × List ℕ :=
  match nearestFree tk.tracks used d tk.matchThreshold2 with
  | some tr =>
    ({ tk with
        tracks := tk.tracks.map (fun t =>
          if t.id = tr.id then { t with prevPos := t.pos, pos := d, lastSeenTime := now }
          else t) },
     tr.id :: used)
  | none =>
    ({ tk with
        tracks := tk.tracks ++ [⟨tk.nextId, d, d, now, now⟩],
        nextId := tk.nextId + 1 },
     tk.nextId :: used)

/-- Modelled from the spec: the assignment phase over all detections
of the frame, in input order. -/
def assignAll (tk : Tracker) (dets : List (ℚ × ℚ)) (now : ℚ) : Tracker :=
  (dets.foldl (fun acc d => assignDetection acc.1 acc.2 d now) (tk, [])).1

/-- Modelled from the spec: drop every track whose time since
`lastSeenTime` exceeds the staleness timeout. -/
def removeStale (tracks : List Track) (now : ℚ) : List Track :=
  tracks.filter (fun tr => decide (¬ STALE_TIMEOUT < now - tr.lastSeenTime))

/-- Modelled from the spec: the per-frame `update` — assignment phase,
then staleness removal over all tracks, visited or not. -/
def trackerUpdate (tk : Tracker) (dets : List (ℚ × ℚ)) (now : ℚ) : Tracker :=
  { assignAll tk dets now with tracks := removeStale (assignAll tk dets now).tracks now }

/-- Claim C8 (spec-modelled): in the per-frame update a track survives
if and only if it is in the post-assignment track set and its time
since `lastSeenTime` is within the 10-second staleness timeout: no
track is removed earlier, every track exceeding the timeout is removed
that frame regardless of being visited, and a track seen this frame
(`lastSeenTime = now`) always survives. -/
theorem track_removed_iff_stale (tk : Tracker) (dets : List (ℚ × ℚ)) (now : ℚ)
    (tr : Track) :
    (tr ∈ (trackerUpdate tk dets now).tracks ↔
      tr ∈ (assignAll tk dets now).tracks ∧ now - tr.lastSeenTime ≤ STALE_TIMEOUT) ∧
    (tr ∈ (assignAll tk dets now).tracks → STALE_TIMEOUT < now - tr.lastSeenTime →
      tr ∉ (trackerUpdate tk dets now).tracks) ∧
    (tr ∈ (assignAll tk dets now).tracks → tr.lastSeenTime = now →
      tr ∈ (trackerUpdate tk dets now).tracks) := by
  have hmem : tr ∈ (trackerUpdate tk dets now).tracks ↔
      tr ∈ (assignAll tk dets now).tracks ∧ now - tr.lastSeenTime ≤ STALE_TIMEOUT := by
    show tr ∈ removeStale (assignAll tk dets now).tracks now ↔ _
    unfold removeStale
    rw [List.mem_filter]
    constructor
    · rintro ⟨h1, h2⟩
      exact ⟨h1, not_lt.mp (of_decide_eq_true h2)⟩
    · rintro ⟨h1, h2⟩
      exact ⟨h1, decide_eq_true (not_lt.mpr h2)⟩
  refine ⟨hmem, ?_, ?_⟩
  · intro h1 h2 hcontra
    exact absurd (hmem.mp hcontra).2 (not_le.mpr h2)
  · intro h1 h2
    refine hmem.mpr ⟨h1, ?_⟩
    rw [h2, sub_self]
    unfold STALE_TIMEOUT
    norm_num

/-- Witness for C8: a track seen at time 0 survives an update at time
0 with no detections. -/
theorem track_removed_iff_stale_witness :
    (⟨0, (0, 0), (0, 0), 0, 0⟩ : Track) ∈
      (trackerUpdate ⟨[⟨0, (0, 0), (0, 0), 0, 0⟩], 1, 8100⟩ [] 0).tracks :=
  (track_removed_iff_stale ⟨[⟨0, (0, 0), (0, 0), 0, 0⟩], 1, 8100⟩ [] 0
    ⟨0, (0, 0), (0, 0), 0, 0⟩).2.2 (by decide) rfl

end SmartSurveillance
